import Mathlib

/-!
Verification of the multi-bar coordinator in `src/multi.rs` of the `pb`
progress-bar library.  Strings are modelled as their UTF-8 byte sequences
(`List Nat`), since the Rust code measures line widths with the byte
length `l.len()` and `from_utf8` validates a byte buffer in place.

Terminal output is modelled at the granularity of emitted items: a
cursor-up escape sequence, a content line (`\r{text}\n`) or a
blank-padding line (spaces of a recorded width).
-/

namespace PB

/-- An update message `WriteMsg { level, string }` sent from a `Pipe`
to the `MultiBar` render loop. -/
structure WriteMsg where
  level : Nat
  string : List Nat
  deriving Repr, DecidableEq

/-- One item of terminal output produced by the coordinator:
`cursorUp n` models `move_cursor_up(n)`, `contentLine t` models
`\r{t}\n`, and `blankLine w` models a line of `w` spaces
(`\r\r{spaces}\n` in a redraw pass, `\r{spaces}\n` in the
termination pass). -/
inductive OutItem where
  | cursorUp (n : Nat)
  | contentLine (text : List Nat)
  | blankLine (width : Nat)
  deriving Repr, DecidableEq

/-- The local state of `MultiBar::listen`: the registry `self.lines`
together with the loop-local `nlines`, `nblank_lines` and `max_width`. -/
structure ListenState where
  lines : List (List Nat)
  nlines : Nat
  nblank_lines : Nat
  max_width : Nat
  deriving Repr, DecidableEq

/-- The scan of the registry in a redraw pass (`for l in self.lines.iter()`):
returns the number of non-empty lines emitted (`new_nlines`), the updated
`max_width`, and the emitted content-line items in slot order. -/
def scanLines : List (List Nat) → Nat → Nat × Nat × List OutItem
  | [], mw => (0, mw, [])
  | l :: ls, mw =>
    if l.length > 0 then
      let r := scanLines ls (max mw l.length)
      (r.1 + 1, r.2.1, OutItem.contentLine l :: r.2.2)
    else
      scanLines ls mw

/-- One iteration of the `while let Ok(msg) = self.chan.1.recv()` body of
`MultiBar::listen`: store the message in the registry, emit the cursor-up
(when the previous pass drew any lines), emit the non-empty registry
entries, compute `nblank_lines = nlines - new_nlines.min(nlines)` and emit
that many blank-padding lines of width `max_width - 1`. -/
def drawPass (st : ListenState) (msg : WriteMsg) : ListenState × List OutItem :=
  let lines := st.lines.set msg.level msg.string
  let up : List OutItem :=
    if st.nlines + st.nblank_lines > 0 then [OutItem.cursorUp (st.nlines + st.nblank_lines)]
    else []
  let scanned := scanLines lines st.max_width
  let new_nlines := scanned.1
  let mw := scanned.2.1
  let content := scanned.2.2
  let nblank := st.nlines - min new_nlines st.nlines
  let blanks := List.replicate nblank (OutItem.blankLine (mw - 1))
  (⟨lines, new_nlines, nblank, mw⟩, up ++ content ++ blanks)

/-- The render loop applied to a finite list of received messages,
collecting the output of each redraw pass. -/
def listenLoop : ListenState → List WriteMsg → ListenState × List (List OutItem)
  | st, [] => (st, [])
  | st, m :: ms =>
    let p := drawPass st m
    let r := listenLoop p.1 ms
    (r.1, p.2 :: r.2)

/-- The state of `listen` before the first message: the registry as built
during registration, with `nlines = 0`, `nblank_lines = 0`, `max_width = 0`. -/
def initState (lines : List (List Nat)) : ListenState :=
  ⟨lines, 0, 0, 0⟩

/-- The final blanking pass after the channel closes: if `nlines > 0`,
cursor up by `nlines`, then `nlines` lines of `max_width - 1` spaces,
then cursor up by `nlines` again; otherwise nothing. -/
def termPass (st : ListenState) : List OutItem :=
  if st.nlines > 0 then
    OutItem.cursorUp st.nlines ::
      (List.replicate st.nlines (OutItem.blankLine (st.max_width - 1)) ++
        [OutItem.cursorUp st.nlines])
  else []

/-- Count of content lines in an output fragment. -/
def contentCount (out : List OutItem) : Nat :=
  out.countP fun i => match i with | OutItem.contentLine _ => true | _ => false

/-- Count of blank-padding lines in an output fragment. -/
def blankCount (out : List OutItem) : Nat :=
  out.countP fun i => match i with | OutItem.blankLine _ => true | _ => false

/-- The texts of the content lines of an output fragment, in emission order. -/
def contentTexts (out : List OutItem) : List (List Nat) :=
  out.filterMap fun i => match i with | OutItem.contentLine t => some t | _ => none

/-- The registration-phase state of a `MultiBar`: `nlines`, the registry
`lines` and the bar counter `nbars` (the channel and output handle carry
no registration state). -/
structure MultiBarState where
  nlines : Nat
  lines : List (List Nat)
  nbars : Nat
  deriving Repr, DecidableEq

/-- `MultiBar::on` (and hence `MultiBar::new`): empty registry. -/
def MultiBarState.on : MultiBarState :=
  ⟨0, [], 0⟩

/-- `MultiBar::println`: push the text onto `self.lines` and bump `nlines`. -/
def MultiBarState.println (mb : MultiBarState) (s : List Nat) : MultiBarState :=
  ⟨mb.nlines + 1, mb.lines ++ [s], mb.nbars⟩

/-- `MultiBar::create_bar`: `self.println("")`, bump `nbars`, and hand the
new bar a `Pipe` with `level = self.nlines - 1`.  Returns the new state and
the assigned pipe level. -/
def MultiBarState.create_bar (mb : MultiBarState) : MultiBarState × Nat :=
  let mb' := mb.println []
  (⟨mb'.nlines, mb'.lines, mb'.nbars + 1⟩, mb'.nlines - 1)

/-- A registration-phase operation: `println s` or `create_bar`. -/
inductive RegOp where
  | println (s : List Nat)
  | createBar
  deriving Repr, DecidableEq

/-- Run a sequence of registration operations, recording for each one the
slot index it claimed: for `println s` the index of the appended slot, for
`create_bar` the level stored in the returned `Pipe`. -/
def runReg : MultiBarState → List RegOp → MultiBarState × List Nat
  | mb, [] => (mb, [])
  | mb, RegOp.println s :: ops =>
    let r := runReg (mb.println s) ops
    (r.1, mb.nlines :: r.2)
  | mb, RegOp.createBar :: ops =>
    let p := mb.create_bar
    let r := runReg p.1 ops
    (r.1, p.2 :: r.2)

/-- The slot indices assigned to `create_bar` calls only, in call order. -/
def barLevels : MultiBarState → List RegOp → List Nat
  | _, [] => []
  | mb, RegOp.println s :: ops => barLevels (mb.println s) ops
  | mb, RegOp.createBar :: ops =>
    let p := mb.create_bar
    p.2 :: barLevels p.1 ops

/-- A continuation byte of a UTF-8 multi-byte sequence: `0x80..=0xBF`. -/
def contByte (b : Nat) : Bool :=
  0x80 ≤ b && b ≤ 0xBF

/-- UTF-8 validity of a byte sequence, as checked by
`std::str::from_utf8`: ASCII bytes stand alone; `0xC2..=0xDF` lead a
2-byte sequence; `0xE0`, `0xE1..=0xEC`, `0xED`, `0xEE..=0xEF` lead 3-byte
sequences (with the first continuation restricted for `0xE0` and `0xED`
to exclude overlong forms and surrogates); `0xF0..=0xF4` lead 4-byte
sequences (restricted for `0xF0` and `0xF4`); everything else is invalid. -/
def validUtf8 : List Nat → Bool
  | [] => true
  | b :: rest =>
    if b ≤ 0x7F then validUtf8 rest
    else if 0xC2 ≤ b && b ≤ 0xDF then
      match rest with
      | c :: r => contByte c && validUtf8 r
      | _ => false
    else if b = 0xE0 then
      match rest with
      | c1 :: c2 :: r => (0xA0 ≤ c1 && c1 ≤ 0xBF) && contByte c2 && validUtf8 r
      | _ => false
    else if (0xE1 ≤ b && b ≤ 0xEC) || b = 0xEE || b = 0xEF then
      match rest with
      | c1 :: c2 :: r => contByte c1 && contByte c2 && validUtf8 r
      | _ => false
    else if b = 0xED then
      match rest with
      | c1 :: c2 :: r => (0x80 ≤ c1 && c1 ≤ 0x9F) && contByte c2 && validUtf8 r
      | _ => false
    else if b = 0xF0 then
      match rest with
      | c1 :: c2 :: c3 :: r =>
        (0x90 ≤ c1 && c1 ≤ 0xBF) && contByte c2 && contByte c3 && validUtf8 r
      | _ => false
    else if 0xF1 ≤ b && b ≤ 0xF3 then
      match rest with
      | c1 :: c2 :: c3 :: r => contByte c1 && contByte c2 && contByte c3 && validUtf8 r
      | _ => false
    else if b = 0xF4 then
      match rest with
      | c1 :: c2 :: c3 :: r =>
        (0x80 ≤ c1 && c1 ≤ 0x8F) && contByte c2 && contByte c3 && validUtf8 r
      | _ => false
    else false

/-- A `Pipe`: the slot it is bound to (the sending end of the channel
carries no further state). -/
structure Pipe where
  level : Nat
  deriving Repr, DecidableEq

/-- `Pipe::write` (`impl Write for Pipe`): decode `buf` as UTF-8 with
`from_utf8(buf).unwrap()` — a panic (modelled as `none`) on invalid
input, before anything is sent — then send `WriteMsg { level, string }`
on the channel and return `Ok(1)`.  The result is the sent message
paired with the returned byte count. -/
def Pipe.write (p : Pipe) (buf : List Nat) : Option (WriteMsg × Nat) :=
  if validUtf8 buf then some (⟨p.level, buf⟩, 1) else none

/-- Reference function for the spec's last-write-wins clause: the text of
the last message in `ms` addressed to slot `S`, if any. -/
def lastMsgText (S : Nat) : List WriteMsg → Option (List Nat)
  | [] => none
  | m :: ms =>
    match lastMsgText S ms with
    | some t => some t
    | none => if m.level = S then some m.string else none

/- ### Helper lemmas -/

lemma scanLines_texts (ls : List (List Nat)) (mw : Nat) :
    (scanLines ls mw).2.2 = (ls.filter fun l => l.length > 0).map OutItem.contentLine := by
  induction ls generalizing mw with
  | nil => simp [scanLines]
  | cons l ls ih =>
    by_cases h : l.length > 0 <;> simp [scanLines, h, ih]

lemma scanLines_count (ls : List (List Nat)) (mw : Nat) :
    (scanLines ls mw).1 = ls.countP fun l => decide (l.length > 0) := by
  induction ls generalizing mw with
  | nil => simp [scanLines]
  | cons l ls ih =>
    by_cases h : l.length > 0 <;>
      simp [scanLines, h, ih, List.countP_cons]

lemma scanLines_mono (ls : List (List Nat)) (mw : Nat) :
    mw ≤ (scanLines ls mw).2.1 := by
  induction ls generalizing mw with
  | nil => simp [scanLines]
  | cons l ls ih =>
    by_cases h : l.length > 0
    · simpa [scanLines, h] using le_trans (le_max_left mw l.length) (ih (max mw l.length))
    · simpa [scanLines, h] using ih mw

lemma scanLines_pos (ls : List (List Nat)) (mw : Nat) (h : 0 < (scanLines ls mw).1) :
    1 ≤ (scanLines ls mw).2.1 := by
  induction ls generalizing mw with
  | nil => simp [scanLines] at h
  | cons l ls ih =>
    by_cases hl : l.length > 0
    · have h1 : 1 ≤ max mw l.length := le_trans hl (le_max_right mw l.length)
      simpa [scanLines, hl] using le_trans h1 (scanLines_mono ls (max mw l.length))
    · simp only [scanLines, hl, if_false] at h ⊢
      exact ih mw h

lemma contentCount_cursorUp (n : Nat) : contentCount [OutItem.cursorUp n] = 0 := rfl

lemma contentCount_append (a b : List OutItem) :
    contentCount (a ++ b) = contentCount a + contentCount b := by
  simp [contentCount, List.countP_append]

lemma blankCount_append (a b : List OutItem) :
    blankCount (a ++ b) = blankCount a + blankCount b := by
  simp [blankCount, List.countP_append]

lemma contentCount_replicate_blank (n w : Nat) :
    contentCount (List.replicate n (OutItem.blankLine w)) = 0 := by
  induction n with
  | zero => rfl
  | succ n ih => simp [List.replicate_succ, contentCount, List.countP_cons] at ih ⊢

lemma blankCount_replicate_blank (n w : Nat) :
    blankCount (List.replicate n (OutItem.blankLine w)) = n := by
  induction n with
  | zero => rfl
  | succ n ih => simpa [List.replicate_succ, blankCount, List.countP_cons] using ih

lemma contentTexts_cursorUp (n : Nat) : contentTexts [OutItem.cursorUp n] = [] := rfl

lemma contentTexts_nil : contentTexts [] = [] := rfl

lemma contentTexts_append (a b : List OutItem) :
    contentTexts (a ++ b) = contentTexts a ++ contentTexts b := by
  simp [contentTexts]

lemma contentTexts_replicate_blank (n w : Nat) :
    contentTexts (List.replicate n (OutItem.blankLine w)) = [] := by
  induction n with
  | zero => rfl
  | succ n ih => simp [List.replicate_succ, contentTexts] at ih ⊢

lemma contentTexts_map_content (ts : List (List Nat)) :
    contentTexts (ts.map OutItem.contentLine) = ts := by
  induction ts with
  | nil => rfl
  | cons t ts ih => simp [contentTexts] at ih ⊢; exact ih

lemma contentCount_map_content (ts : List (List Nat)) :
    contentCount (ts.map OutItem.contentLine) = ts.length := by
  induction ts with
  | nil => rfl
  | cons t ts ih => simp [contentCount, List.countP_cons] at ih ⊢

lemma blankCount_map_content (ts : List (List Nat)) :
    blankCount (ts.map OutItem.contentLine) = 0 := by
  induction ts with
  | nil => rfl
  | cons t ts ih => simp [blankCount, List.countP_cons] at ih ⊢

/-- The number of content lines a redraw pass emits is the scan count. -/
lemma drawPass_contentCount (st : ListenState) (msg : WriteMsg) :
    contentCount (drawPass st msg).2 =
      (scanLines (st.lines.set msg.level msg.string) st.max_width).1 := by
  by_cases h : st.nlines + st.nblank_lines > 0 <;>
    simp [drawPass, h, contentCount_append, contentCount, contentCount_replicate_blank,
      scanLines_texts, scanLines_count, contentCount_map_content, List.countP_map]
  all_goals
    simp [Function.comp_def, List.countP_filter, List.countP_eq_length_filter]

/-- The number of blank-padding lines a redraw pass emits is the stored
`nblank_lines` of the resulting state. -/
lemma drawPass_blankCount (st : ListenState) (msg : WriteMsg) :
    blankCount (drawPass st msg).2 =
      st.nlines - min (scanLines (st.lines.set msg.level msg.string) st.max_width).1 st.nlines := by
  by_cases h : st.nlines + st.nblank_lines > 0 <;>
    simp [drawPass, h, blankCount_append, blankCount, blankCount_replicate_blank,
      scanLines_texts, blankCount_map_content, List.countP_map]
  all_goals
    simp [Function.comp_def, List.countP_eq_length_filter, List.filter_filter]

/-- The registry component of the loop state is a left fold of `List.set`
over the received messages. -/
lemma listenLoop_lines (st : ListenState) (ms : List WriteMsg) :
    (listenLoop st ms).1.lines =
      ms.foldl (fun ls m => ls.set m.level m.string) st.lines := by
  induction ms generalizing st with
  | nil => rfl
  | cons m ms ih => simpa [listenLoop, drawPass] using ih (drawPass st m).1

lemma foldl_set_length (L : List (List Nat)) (ms : List WriteMsg) :
    (ms.foldl (fun ls m => ls.set m.level m.string) L).length = L.length := by
  induction ms generalizing L with
  | nil => rfl
  | cons m ms ih => simpa using ih (L.set m.level m.string)

lemma foldl_set_getD (L : List (List Nat)) (ms : List WriteMsg) (S : Nat)
    (hS : S < L.length) :
    (ms.foldl (fun ls m => ls.set m.level m.string) L).getD S [] =
      (lastMsgText S ms).getD (L.getD S []) := by
  induction ms generalizing L with
  | nil => simp [lastMsgText]
  | cons m ms ih =>
    have hS' : S < (L.set m.level m.string).length := by simpa using hS
    by_cases hlvl : m.level = S
    · subst hlvl
      have hset : (L.set m.level m.string).getD m.level [] = m.string := by
        simp [List.getD, List.getElem?_set, hS]
      rw [List.foldl_cons, ih _ hS', hset]
      cases h : lastMsgText m.level ms <;> simp [lastMsgText, h]
    · have hset : (L.set m.level m.string).getD S [] = L.getD S [] := by
        simp [List.getD, List.getElem?_set_ne hlvl]
      rw [List.foldl_cons, ih _ hS', hset]
      cases h : lastMsgText S ms <;> simp [lastMsgText, h, hlvl]

/- ### The claims -/

/-- C1, as stated, is false: in the third pass of this trace the previous
pass's non-blank count plus its blank-padding count is 3 and the new pass
emits 1 content line, so the claim predicts `max 0 (3 - 1) = 2` blank
lines, but the code emits `nlines - min new_nlines nlines = 2 - 1 = 1`. -/
theorem C1_blank_padding_counterexample :
    (((listenLoop (initState [[97], [98], [99]]) [⟨0, [97]⟩, ⟨1, []⟩]).1.nlines +
        (listenLoop (initState [[97], [98], [99]]) [⟨0, [97]⟩, ⟨1, []⟩]).1.nblank_lines = 3) ∧
      contentCount
        (drawPass (listenLoop (initState [[97], [98], [99]]) [⟨0, [97]⟩, ⟨1, []⟩]).1
          ⟨2, []⟩).2 = 1) ∧
    ¬ (blankCount
        (drawPass (listenLoop (initState [[97], [98], [99]]) [⟨0, [97]⟩, ⟨1, []⟩]).1
          ⟨2, []⟩).2 =
      max 0
        (((listenLoop (initState [[97], [98], [99]]) [⟨0, [97]⟩, ⟨1, []⟩]).1.nlines +
            (listenLoop (initState [[97], [98], [99]]) [⟨0, [97]⟩, ⟨1, []⟩]).1.nblank_lines) -
          contentCount
            (drawPass (listenLoop (initState [[97], [98], [99]]) [⟨0, [97]⟩, ⟨1, []⟩]).1
              ⟨2, []⟩).2)) := by
  decide

/-- C1 (amended): in every redraw pass the number of blank-padding lines
emitted equals `max 0 (previous_nlines - new_nlines)` where
`previous_nlines` is the previous pass's non-blank line count alone — the
trailing blank-padding count is not included, even though it is included
in the `N` of the cursor-up at the start of the pass. -/
theorem C1_blank_padding_amended (st : ListenState) (msg : WriteMsg) :
    blankCount (drawPass st msg).2 =
      st.nlines - min (contentCount (drawPass st msg).2) st.nlines := by
  rw [drawPass_blankCount, drawPass_contentCount]

/-- C3: in every redraw pass, the content lines emitted are exactly the
non-empty registry entries at that instant, in slot order — so their
number equals the number of non-empty entries, never more, never fewer. -/
theorem C3_redraw_line_count (st : ListenState) (msg : WriteMsg) :
    contentTexts (drawPass st msg).2 =
      (st.lines.set msg.level msg.string).filter (fun l => l.length > 0) ∧
    contentCount (drawPass st msg).2 =
      (st.lines.set msg.level msg.string).countP (fun l => decide (l.length > 0)) := by
  constructor
  · by_cases h : st.nlines + st.nblank_lines > 0 <;>
      simp only [drawPass, h, if_true, if_false, contentTexts_append, scanLines_texts,
        contentTexts_replicate_blank, contentTexts_map_content, contentTexts_cursorUp,
        contentTexts_nil, List.nil_append, List.append_nil]
  · rw [drawPass_contentCount, scanLines_count]

/-- C2: after the render loop processes any finite message sequence, the
registry entry for a slot `S` is the text of the last message addressed to
`S`, or `S`'s initial registration text if no message addresses `S`;
messages to other slots never change `S`'s entry, whatever the
interleaving. -/
theorem C2_last_write_wins (L : List (List Nat)) (ms : List WriteMsg) (S : Nat)
    (hS : S < L.length) (_hms : ∀ m ∈ ms, m.level < L.length) :
    ((listenLoop (initState L) ms).1.lines).getD S [] =
      (lastMsgText S ms).getD (L.getD S []) := by
  rw [listenLoop_lines]
  exact foldl_set_getD L ms S hS

/-- Witness for C2 at a concrete trace: two slots, interleaved messages,
the last message to slot 0 wins and slot 1 keeps its own last message. -/
theorem C2_last_write_wins_witness :
    ((listenLoop (initState [[], []]) [⟨0, [97]⟩, ⟨1, [98]⟩, ⟨0, [99]⟩]).1.lines).getD 0 [] =
      (lastMsgText 0 [⟨0, [97]⟩, ⟨1, [98]⟩, ⟨0, [99]⟩]).getD (([[], []] : List (List Nat)).getD 0 []) :=
  C2_last_write_wins [[], []] [⟨0, [97]⟩, ⟨1, [98]⟩, ⟨0, [99]⟩] 0 (by decide)
    (by intro m hm; fin_cases hm <;> decide)

/-- C4: the termination pass with `nlines > 0` is exactly a cursor-up by
`nlines`, then `nlines` blank lines of `max_width - 1` spaces, then a
second cursor-up by `nlines` — clearing exactly as many lines as were
visible in the last drawn pass — and with `nlines = 0` it emits nothing. -/
theorem C4_termination_pass (st : ListenState) :
    (st.nlines > 0 →
      termPass st =
        OutItem.cursorUp st.nlines ::
          (List.replicate st.nlines (OutItem.blankLine (st.max_width - 1)) ++
            [OutItem.cursorUp st.nlines]) ∧
      blankCount (termPass st) = st.nlines) ∧
    (st.nlines = 0 → termPass st = []) := by
  constructor
  · intro h
    refine ⟨by simp [termPass, h], ?_⟩
    simp [termPass, h, blankCount, List.countP_cons, List.countP_append]
    induction st.nlines with
    | zero => rfl
    | succ n ih => simpa [List.replicate_succ, List.countP_cons] using ih
  · intro h
    simp [termPass, h]

/-- Witness for C4: both branches at concrete states. -/
theorem C4_termination_pass_witness :
    (termPass ⟨[], 2, 0, 5⟩ =
        OutItem.cursorUp 2 ::
          (List.replicate 2 (OutItem.blankLine 4) ++ [OutItem.cursorUp 2]) ∧
      blankCount (termPass ⟨[], 2, 0, 5⟩) = 2) ∧
    termPass ⟨[], 0, 0, 5⟩ = [] :=
  ⟨(C4_termination_pass ⟨[], 2, 0, 5⟩).1 (by decide),
   (C4_termination_pass ⟨[], 0, 0, 5⟩).2 rfl⟩

/-- The slot indices claimed by a registration sequence are consecutive,
starting at the current `nlines`. -/
lemma runReg_indices (mb : MultiBarState) (ops : List RegOp) :
    (runReg mb ops).2 = List.range' mb.nlines ops.length := by
  induction ops generalizing mb with
  | nil => rfl
  | cons op ops ih =>
    cases op with
    | println s =>
      simpa [runReg, List.range'] using ih (mb.println s)
    | createBar =>
      simpa [runReg, MultiBarState.create_bar, MultiBarState.println, List.range'] using
        ih ⟨mb.nlines + 1, mb.lines ++ [[]], mb.nbars + 1⟩

/-- C5: in any registration sequence, a later registration (in particular
the Nth `create_bar`) is assigned a slot index strictly greater than every
earlier registration's slot index — earlier bars' and earlier `println`
slots alike — so it renders strictly below all of them. -/
theorem C5_bar_ordering (ops : List RegOp) (i j : Nat) (hij : i < j)
    (hj : j < ((runReg MultiBarState.on ops).2).length) :
    (runReg MultiBarState.on ops).2.getD i 0 < (runReg MultiBarState.on ops).2.getD j 0 := by
  rw [runReg_indices] at hj ⊢
  simp only [MultiBarState.on, List.length_range'] at hj ⊢
  rw [List.getD_eq_getElem?_getD, List.getD_eq_getElem?_getD,
    List.getElem?_range' 0 1 (lt_trans hij hj), List.getElem?_range' 0 1 hj]
  simpa using hij

/-- Witness for C5: a `println` followed by two `create_bar`s — the slot
of the second bar is strictly greater than the slot of the first. -/
theorem C5_bar_ordering_witness :
    (1 : Nat) < 2 ∧ 2 < ((runReg MultiBarState.on
        [RegOp.println [104], RegOp.createBar, RegOp.createBar]).2).length ∧
      (runReg MultiBarState.on
          [RegOp.println [104], RegOp.createBar, RegOp.createBar]).2.getD 1 0 <
        (runReg MultiBarState.on
            [RegOp.println [104], RegOp.createBar, RegOp.createBar]).2.getD 2 0 :=
  ⟨by decide, by decide,
    C5_bar_ordering [RegOp.println [104], RegOp.createBar, RegOp.createBar] 1 2
      (by decide) (by decide)⟩

lemma drawPass_max_width_mono (st : ListenState) (msg : WriteMsg) :
    st.max_width ≤ (drawPass st msg).1.max_width := by
  simpa [drawPass] using scanLines_mono (st.lines.set msg.level msg.string) st.max_width

lemma listenLoop_max_width_mono (st : ListenState) (ms : List WriteMsg) :
    st.max_width ≤ (listenLoop st ms).1.max_width := by
  induction ms generalizing st with
  | nil => exact le_refl _
  | cons m ms ih =>
    exact le_trans (drawPass_max_width_mono st m)
      (by simpa [listenLoop] using ih (drawPass st m).1)

/-- C6: `max_width` never decreases — neither across a single redraw pass
(message processing, including its blank-padding step) nor across any run
of the render loop; the termination pass reads it without modifying any
state. -/
theorem C6_max_width_monotone (st : ListenState) (msg : WriteMsg) (ms : List WriteMsg) :
    st.max_width ≤ (drawPass st msg).1.max_width ∧
      st.max_width ≤ (listenLoop st ms).1.max_width :=
  ⟨drawPass_max_width_mono st msg, listenLoop_max_width_mono st ms⟩

/-- C7: a write buffer that is not valid UTF-8 makes `Pipe::write` panic
(`from_utf8(buf).unwrap()`): the call aborts with no success value and no
message is sent on the channel. -/
theorem C7_invalid_utf8_aborts (p : Pipe) (buf : List Nat)
    (h : validUtf8 buf = false) :
    Pipe.write p buf = none := by
  simp [Pipe.write, h]

/-- Witness for C7: the lone byte `0xFF` is not valid UTF-8 and the write
aborts without sending. -/
theorem C7_invalid_utf8_aborts_witness :
    validUtf8 [0xFF] = false ∧ Pipe.write ⟨0⟩ [0xFF] = none :=
  ⟨by decide, C7_invalid_utf8_aborts ⟨0⟩ [0xFF] (by decide)⟩

/-- Whatever the registration sequence does, the registry only grows. -/
lemma runReg_lines_le (mb : MultiBarState) (ops : List RegOp) :
    mb.lines.length ≤ (runReg mb ops).1.lines.length := by
  induction ops generalizing mb with
  | nil => exact le_refl _
  | cons op ops ih =>
    cases op with
    | println s =>
      refine le_trans ?_ (ih (mb.println s))
      simp [MultiBarState.println]
    | createBar =>
      refine le_trans ?_ (ih mb.create_bar.1)
      simp [MultiBarState.create_bar, MultiBarState.println]

/-- Every level handed to a `Pipe` by `create_bar` is in bounds for the
registry as it stands when registration ends. -/
lemma barLevels_lt (mb : MultiBarState) (ops : List RegOp)
    (h : mb.nlines = mb.lines.length) :
    ∀ lvl ∈ barLevels mb ops, lvl < (runReg mb ops).1.lines.length := by
  induction ops generalizing mb with
  | nil => simp [barLevels]
  | cons op ops ih =>
    cases op with
    | println s =>
      intro lvl hlvl
      simp only [barLevels] at hlvl
      have h' : (mb.println s).nlines = (mb.println s).lines.length := by
        simp [MultiBarState.println, h]
      simpa [runReg] using ih (mb.println s) h' lvl hlvl
    | createBar =>
      intro lvl hlvl
      simp only [barLevels, List.mem_cons] at hlvl
      have h' : mb.create_bar.1.nlines = mb.create_bar.1.lines.length := by
        simp [MultiBarState.create_bar, MultiBarState.println, h]
      rcases hlvl with rfl | hlvl
      · have hlen : mb.create_bar.2 < mb.create_bar.1.lines.length := by
          simp [MultiBarState.create_bar, MultiBarState.println, h]
        simpa [runReg] using lt_of_lt_of_le hlen (runReg_lines_le mb.create_bar.1 ops)
      · simpa [runReg] using ih mb.create_bar.1 h' lvl hlvl

/-- C8: every pipe level assigned by `create_bar` stays strictly below the
length of the coordinator's `lines` vector at every point of the render
loop (the registration keeps `level = nlines - 1 < nlines` and the loop
never changes the vector's length), so `self.lines[msg.level]` is always
in bounds. -/
theorem C8_level_in_bounds (ops : List RegOp) (ms : List WriteMsg) (lvl : Nat)
    (h : lvl ∈ barLevels MultiBarState.on ops) :
    lvl < ((listenLoop (initState (runReg MultiBarState.on ops).1.lines) ms).1.lines).length := by
  rw [listenLoop_lines]
  rw [foldl_set_length]
  exact barLevels_lt MultiBarState.on ops rfl lvl h

/-- Witness for C8: one `create_bar`, no messages — its level 0 is below
the registry length 1. -/
theorem C8_level_in_bounds_witness :
    (0 : Nat) ∈ barLevels MultiBarState.on [RegOp.createBar] ∧
      (0 : Nat) <
        ((listenLoop (initState (runReg MultiBarState.on [RegOp.createBar]).1.lines)
            []).1.lines).length :=
  ⟨by decide, C8_level_in_bounds [RegOp.createBar] [] 0 (by decide)⟩

/-- Any state the render loop can reach satisfies: if the last pass drew a
non-empty line then `max_width` is at least 1. -/
lemma drawPass_nlines_width (st : ListenState) (msg : WriteMsg) :
    0 < (drawPass st msg).1.nlines → 1 ≤ (drawPass st msg).1.max_width := by
  simpa [drawPass] using scanLines_pos (st.lines.set msg.level msg.string) st.max_width

lemma listenLoop_width_inv (st : ListenState) (ms : List WriteMsg)
    (h : 0 < st.nlines → 1 ≤ st.max_width) :
    0 < (listenLoop st ms).1.nlines → 1 ≤ (listenLoop st ms).1.max_width := by
  induction ms generalizing st with
  | nil => exact h
  | cons m ms ih =>
    simpa [listenLoop] using ih (drawPass st m).1 (drawPass_nlines_width st m)

/-- C9: whenever a blank line of `max_width - 1` spaces is emitted — in a
redraw pass with `nblank_lines > 0`, or in the termination pass with
`nlines > 0` — the `max_width` being decremented is at least 1, so the
unsigned subtraction `max_width - 1` cannot underflow. -/
theorem C9_max_width_positive (L : List (List Nat)) (ms : List WriteMsg) (msg : WriteMsg) :
    (0 < blankCount (drawPass (listenLoop (initState L) ms).1 msg).2 →
      1 ≤ (drawPass (listenLoop (initState L) ms).1 msg).1.max_width) ∧
    (0 < (listenLoop (initState L) ms).1.nlines →
      1 ≤ (listenLoop (initState L) ms).1.max_width) := by
  have hst : 0 < (listenLoop (initState L) ms).1.nlines →
      1 ≤ (listenLoop (initState L) ms).1.max_width :=
    listenLoop_width_inv (initState L) ms (by simp [initState])
  refine ⟨?_, hst⟩
  intro hblank
  have hpos : 0 < (listenLoop (initState L) ms).1.nlines := by
    rw [drawPass_blankCount] at hblank
    omega
  exact le_trans (hst hpos) (drawPass_max_width_mono _ msg)

/-- Witness for C9: one slot drawn with text `"a"`, then emptied — the
redraw pass emits a blank line and `max_width = 1`; the state before the
termination pass likewise has `nlines = 1` and `max_width = 1`. -/
theorem C9_max_width_positive_witness :
    (0 < blankCount (drawPass (listenLoop (initState [[97]]) [⟨0, [97]⟩]).1 ⟨0, []⟩).2 ∧
      1 ≤ (drawPass (listenLoop (initState [[97]]) [⟨0, [97]⟩]).1 ⟨0, []⟩).1.max_width) ∧
    (0 < (listenLoop (initState [[97]]) [⟨0, [97]⟩]).1.nlines ∧
      1 ≤ (listenLoop (initState [[97]]) [⟨0, [97]⟩]).1.max_width) :=
  ⟨⟨by decide, (C9_max_width_positive [[97]] [⟨0, [97]⟩] ⟨0, []⟩).1 (by decide)⟩,
   ⟨by decide, (C9_max_width_positive [[97]] [⟨0, [97]⟩] ⟨0, []⟩).2 (by decide)⟩⟩

/-- C10: whenever `Pipe::write` returns successfully it returns `Ok(1)` —
one byte reported consumed regardless of the buffer's length — while the
whole decoded buffer is forwarded as a single message. -/
theorem C10_write_returns_one (p : Pipe) (buf : List Nat)
    (h : validUtf8 buf = true) :
    Pipe.write p buf = some (⟨p.level, buf⟩, 1) := by
  simp [Pipe.write, h]

/-- Witness for C10: a two-byte buffer `"hi"` is fully forwarded but the
reported count is 1. -/
theorem C10_write_returns_one_witness :
    validUtf8 [104, 105] = true ∧
      Pipe.write ⟨3⟩ [104, 105] = some (⟨3, [104, 105]⟩, 1) :=
  ⟨by decide, C10_write_returns_one ⟨3⟩ [104, 105] (by decide)⟩

end PB
